import Mathlib

/-!
# Verification of the kaspa402 UTXO management core

A shallow embedding of the UTXO management core of the kaspa402 repository
(packages/core/src/utxo): enrichment, cache, mass estimation, the three
selection strategies, the selector, the lock table, retrying fetch, and the
consolidator.  Amounts and DAA scores are JavaScript BigInts, modelled as
`Int`; JavaScript numbers that take part in exact integer arithmetic are
modelled as `Int`/`Nat`, and the fractional mass-limit arithmetic
(`massLimitBuffer`) as `ℚ`.  The floating-point fragmentation score is
modelled with an explicit NaN/Infinity-aware number type.
-/

/-! ## Data model (packages/core/src/types.ts) -/

/-- Network tag; routes to distinct REST base URLs. -/
inductive Network where
  | mainnet : Network
  | testnet : Network
deriving DecidableEq, Repr

/-- String form of the network tag as it appears in cache keys. -/
def Network.str : Network → String
  | .mainnet => "mainnet"
  | .testnet => "testnet"

/-- Globally unique identity of a UTXO. -/
structure Outpoint where
  transactionId : String
  index : Nat
deriving DecidableEq, Repr

/-- The `scriptPublicKey` object of a UTXO entry. -/
structure ScriptPublicKey where
  version : Nat
  scriptPublicKey : String
deriving DecidableEq, Repr

/-- The `utxoEntry` object.  `amount` and `blockDaaScore` arrive as decimal
strings and are promoted to BigInt at every use site; we model them as the
integers they denote. -/
structure UtxoEntry where
  amount : Int
  scriptPublicKey : ScriptPublicKey
  blockDaaScore : Int
  isCoinbase : Bool
deriving DecidableEq, Repr

/-- Raw UTXO as consumed by `enrichUTXO` (outpoint + entry, no metadata). -/
structure RawUTXO where
  outpoint : Outpoint
  utxoEntry : UtxoEntry
deriving DecidableEq, Repr

/-- Metadata added by enrichment (UTXOFetcher.enrichUTXO). -/
structure UTXOMetadata where
  fetchedAt : Int
  ageInBlocks : Int
  isFresh : Bool
  estimatedMassContribution : Nat
deriving DecidableEq, Repr

/-- RawUTXO augmented with selection metadata. -/
structure EnrichedUTXO where
  outpoint : Outpoint
  utxoEntry : UtxoEntry
  metadata : UTXOMetadata
deriving DecidableEq, Repr

/-- UTXOManagerConfig.  `massLimitBuffer` is a JavaScript float in (0, 1];
we model it (and `maxMassBytes`, which is multiplied by it) exactly in `ℚ`. -/
structure UTXOManagerConfig where
  minUtxoAgeBlocks : Int
  maxInputsPerTx : Nat
  consolidationThreshold : Nat
  massLimitBuffer : ℚ
  maxMassBytes : ℚ
  cacheExpiryMs : Int
deriving DecidableEq, Repr

/-- The rational 0.9, written in normal form so that the kernel can
evaluate arithmetic on it. -/
def ratNineTenths : ℚ := { num := 9, den := 10, den_nz := by norm_num, reduced := by norm_num }

/-- The default configuration (UTXOManager.DEFAULT_UTXO_CONFIG). -/
def DEFAULT_UTXO_CONFIG : UTXOManagerConfig :=
  { minUtxoAgeBlocks := 10
    maxInputsPerTx := 5
    consolidationThreshold := 10
    massLimitBuffer := ratNineTenths
    maxMassBytes := 100000
    cacheExpiryMs := 10000 }

/-- Result produced by a selection strategy. -/
structure SelectionResult where
  utxos : List EnrichedUTXO
  totalAmount : Int
  estimatedMass : Nat
  strategy : String
  warnings : List String
deriving DecidableEq, Repr

/-- `kasToSompi "1"` in the source: 1 KAS = 10^8 sompi. -/
def kasToSompiOne : Int := 100000000

/-! ## Sorting

The source sorts with `Array.prototype.sort` and a numeric comparator; we
model each such call with `List.insertionSort` on the corresponding
"greater or equal on the key" relation, which yields a permutation sorted
in descending key order exactly as the JavaScript sort does. -/

/-- Descending-amount order used by AmountBasedStrategy.select,
UTXOSelector.validateSelection and UTXOManager.getWalletHealth. -/
def amountGE (a b : EnrichedUTXO) : Prop := b.utxoEntry.amount ≤ a.utxoEntry.amount

instance : DecidableRel amountGE := fun a b =>
  inferInstanceAs (Decidable (b.utxoEntry.amount ≤ a.utxoEntry.amount))

instance : IsTotal EnrichedUTXO amountGE := ⟨fun a b => (le_total a.utxoEntry.amount b.utxoEntry.amount).symm⟩

instance : IsTrans EnrichedUTXO amountGE := ⟨fun _ _ _ h h' => le_trans h' h⟩

/-- Descending-age order used by AgeBasedStrategy.select and
UTXOConsolidator.selectConsolidationCandidates. -/
def ageGE (a b : EnrichedUTXO) : Prop := b.metadata.ageInBlocks ≤ a.metadata.ageInBlocks

instance : DecidableRel ageGE := fun a b =>
  inferInstanceAs (Decidable (b.metadata.ageInBlocks ≤ a.metadata.ageInBlocks))

instance : IsTotal EnrichedUTXO ageGE := ⟨fun a b => (le_total a.metadata.ageInBlocks b.metadata.ageInBlocks).symm⟩

instance : IsTrans EnrichedUTXO ageGE := ⟨fun _ _ _ h h' => le_trans h' h⟩

/-- Sort by amount, largest first. -/
def sortByAmountDesc (l : List EnrichedUTXO) : List EnrichedUTXO :=
  l.insertionSort amountGE

/-- Sort by age, oldest first. -/
def sortByAgeDesc (l : List EnrichedUTXO) : List EnrichedUTXO :=
  l.insertionSort ageGE

/-! ## BaseSelectionStrategy (strategies/SelectionStrategy.ts) -/

/-- One step state of the greedy loop: remaining candidates, selection so
far, accumulated amount, accumulated mass.  Mirrors the `for` loop in
`BaseSelectionStrategy.greedySelect`; the `break` paths fall through to the
final `return null`, so they map to `none` (the warning strings pushed just
before a `break` are unobservable and are dropped). -/
def greedyLoop (name : String) (targetAmount : Int) (maxInputs : Nat) (maxMass : ℚ) :
    List EnrichedUTXO → List EnrichedUTXO → Int → Nat → Option SelectionResult
  | [], _, _, _ => none
  | utxo :: rest, selected, totalAmount, estimatedMass =>
    if maxInputs ≤ selected.length then
      none
    else
      let newMass := estimatedMass + utxo.metadata.estimatedMassContribution + 50
      if maxMass < (newMass : ℚ) then
        none
      else
        let selected' := selected ++ [utxo]
        let totalAmount' := totalAmount + utxo.utxoEntry.amount
        if targetAmount ≤ totalAmount' then
          let freshCount := (selected'.filter (fun u => u.metadata.isFresh)).length
          let warnings :=
            if 0 < freshCount then
              ["Using " ++ toString freshCount ++ " fresh UTXO(s) - may cause issues"]
            else []
          some { utxos := selected', totalAmount := totalAmount',
                 estimatedMass := newMass, strategy := name, warnings := warnings }
        else
          greedyLoop name targetAmount maxInputs maxMass rest selected' totalAmount' newMass

/-- BaseSelectionStrategy.greedySelect: greedy selection over a pre-sorted
candidate list, starting from the 100-byte base overhead. -/
def greedySelect (name : String) (sortedUTXOs : List EnrichedUTXO) (targetAmount : Int)
    (maxInputs : Nat) (maxMass : ℚ) : Option SelectionResult :=
  greedyLoop name targetAmount maxInputs maxMass sortedUTXOs [] 0 100

/-- BaseSelectionStrategy.buildResult: a one-UTXO result, with mass
overhead + input contribution + one output. -/
def buildResult (name : String) (utxo : EnrichedUTXO) : SelectionResult :=
  { utxos := [utxo]
    totalAmount := utxo.utxoEntry.amount
    estimatedMass := 100 + utxo.metadata.estimatedMassContribution + 50
    strategy := name
    warnings := if utxo.metadata.isFresh then ["Using fresh UTXO - may cause issues"] else [] }

/-! ## AmountBasedStrategy (strategies/AmountBasedStrategy.ts) -/

/-- AmountBasedStrategy.select: sort by amount descending; if some single
UTXO covers the target return it alone via buildResult (ignoring
maxInputs/maxMass), else greedy on the amount-sorted list. -/
def AmountBasedStrategy.select (utxos : List EnrichedUTXO) (targetAmount : Int)
    (maxInputs : Nat) (maxMass : ℚ) : Option SelectionResult :=
  if utxos.isEmpty then none
  else
    let sortedByAmount := sortByAmountDesc utxos
    match sortedByAmount.find? (fun u => decide (targetAmount ≤ u.utxoEntry.amount)) with
    | some singleUTXO => some (buildResult "amount-based" singleUTXO)
    | none => greedySelect "amount-based" sortedByAmount targetAmount maxInputs maxMass

/-- AmountBasedStrategy.findOptimalSingleUTXO: smallest UTXO covering the
target (never called by select; modelled for reference). -/
def AmountBasedStrategy.findOptimalSingleUTXO (utxos : List EnrichedUTXO)
    (targetAmount : Int) : Option EnrichedUTXO :=
  let candidates := utxos.filter (fun u => decide (targetAmount ≤ u.utxoEntry.amount))
  match candidates with
  | [] => none
  | c :: cs =>
    some (cs.foldl (fun best current =>
      if current.utxoEntry.amount < best.utxoEntry.amount then current else best) c)

/-! ## AgeBasedStrategy (strategies/AgeBasedStrategy.ts) -/

/-- AgeBasedStrategy.select: greedy over mature UTXOs sorted oldest first,
falling back to mature ++ fresh with an extra warning. -/
def AgeBasedStrategy.select (utxos : List EnrichedUTXO) (targetAmount : Int)
    (maxInputs : Nat) (maxMass : ℚ) : Option SelectionResult :=
  if utxos.isEmpty then none
  else
    let matureUTXOs := utxos.filter (fun u => !u.metadata.isFresh)
    let freshUTXOs := utxos.filter (fun u => u.metadata.isFresh)
    let sortedMature := sortByAgeDesc matureUTXOs
    let firstTry :=
      if 0 < sortedMature.length then
        greedySelect "age-based" sortedMature targetAmount maxInputs maxMass
      else none
    match firstTry with
    | some result => some result
    | none =>
      if 0 < freshUTXOs.length then
        let sortedFresh := sortByAgeDesc freshUTXOs
        let combined := sortedMature ++ sortedFresh
        match greedySelect "age-based" combined targetAmount maxInputs maxMass with
        | some result =>
          some { result with
                 warnings := result.warnings ++
                   ["Had to use fresh UTXOs due to insufficient mature balance"] }
        | none => none
      else none

/-! ## HybridStrategy (strategies/HybridStrategy.ts) -/

/-- A UTXO with its composite score. -/
structure ScoredUTXO where
  utxo : EnrichedUTXO
  score : ℚ
  ageScore : ℚ
  amountScore : ℚ
  massScore : ℚ
deriving DecidableEq

/-- HybridStrategy.calculateAgeScore.  When `minUtxoAgeBlocks = 10` the
linear-interpolation branch divides by zero; that branch is unreachable
for consistently enriched metadata, and we use the `ℚ` convention x/0 = 0
there. -/
def calculateAgeScore (cfg : UTXOManagerConfig) (utxo : EnrichedUTXO) : ℚ :=
  let age := utxo.metadata.ageInBlocks
  if utxo.metadata.isFresh then 0
  else
    let minAge := cfg.minUtxoAgeBlocks
    let maxAge : Int := 10
    if maxAge ≤ age then 100
    else ((age - minAge : ℚ) / ((maxAge - minAge : Int) : ℚ)) * 100

/-- HybridStrategy.calculateAmountScore.  The percentage uses BigInt
division, which truncates toward zero. -/
def calculateAmountScore (utxo : EnrichedUTXO) (targetAmount : Int) : ℚ :=
  let utxoAmount := utxo.utxoEntry.amount
  if targetAmount ≤ utxoAmount then 100
  else
    let percentage := Int.tdiv (utxoAmount * 100) targetAmount
    min (percentage : ℚ) 99

/-- HybridStrategy.calculateMassScore. -/
def calculateMassScore (utxo : EnrichedUTXO) : ℚ :=
  let mass : ℚ := utxo.metadata.estimatedMassContribution
  let maxMass : ℚ := 300
  let normalized := max 0 (min mass maxMass) / maxMass
  (1 - normalized) * 100

/-- HybridStrategy.scoreUTXO: weighted composite of the three axes. -/
def scoreUTXO (cfg : UTXOManagerConfig) (utxo : EnrichedUTXO) (targetAmount : Int) : ScoredUTXO :=
  let ageScore := calculateAgeScore cfg utxo
  let amountScore := calculateAmountScore utxo targetAmount
  let massScore := calculateMassScore utxo
  { utxo := utxo
    score := ageScore * 40 / 100 + amountScore * 30 / 100 + massScore * 30 / 100
    ageScore := ageScore, amountScore := amountScore, massScore := massScore }

/-- Descending-score order used by HybridStrategy.select. -/
def scoreGE (a b : ScoredUTXO) : Prop := b.score ≤ a.score

instance : DecidableRel scoreGE := fun a b => inferInstanceAs (Decidable (b.score ≤ a.score))

instance : IsTotal ScoredUTXO scoreGE := ⟨fun a b => (le_total a.score b.score).symm⟩

instance : IsTrans ScoredUTXO scoreGE := ⟨fun _ _ _ h h' => le_trans h' h⟩

/-- HybridStrategy.select: score, sort by score descending, greedy. -/
def HybridStrategy.select (cfg : UTXOManagerConfig) (utxos : List EnrichedUTXO)
    (targetAmount : Int) (maxInputs : Nat) (maxMass : ℚ) : Option SelectionResult :=
  if utxos.isEmpty then none
  else
    let scored := utxos.map (fun u => scoreUTXO cfg u targetAmount)
    let sortedScored := scored.insertionSort scoreGE
    let sortedUTXOs := sortedScored.map (fun s => s.utxo)
    greedySelect "hybrid" sortedUTXOs targetAmount maxInputs maxMass

/-- The three strategies as a tagged variant, dispatched by the selector in
the fixed order hybrid, age-based, amount-based. -/
inductive Strategy where
  | hybrid : Strategy
  | ageBased : Strategy
  | amountBased : Strategy
deriving DecidableEq, Repr

/-- Dispatch a strategy's select method. -/
def Strategy.runSelect (s : Strategy) (cfg : UTXOManagerConfig) (utxos : List EnrichedUTXO)
    (targetAmount : Int) (maxInputs : Nat) (maxMass : ℚ) : Option SelectionResult :=
  match s with
  | .hybrid => HybridStrategy.select cfg utxos targetAmount maxInputs maxMass
  | .ageBased => AgeBasedStrategy.select utxos targetAmount maxInputs maxMass
  | .amountBased => AmountBasedStrategy.select utxos targetAmount maxInputs maxMass

/-! ## UTXOSelector (UTXOSelector.ts)

`selectOptimal` is async only because of logging; its decision logic is
pure.  Real-time bookkeeping (`selectionTimeMs`) is dropped from the model;
errors are the thrown Error messages, abbreviated to stable tags. -/

/-- SelectionResult wrapped with selector provenance (SelectedUTXOs). -/
structure SelectedUTXOs where
  utxos : List EnrichedUTXO
  totalAmount : Int
  estimatedMass : Nat
  strategy : String
  warnings : List String
  strategiesAttempted : List String
  freshUtxosUsed : Nat
deriving DecidableEq, Repr

/-- Wrap a strategy result as the selector does, counting fresh UTXOs in
the winning selection. -/
def wrapResult (result : SelectionResult) (strategiesAttempted : List String) : SelectedUTXOs :=
  { utxos := result.utxos
    totalAmount := result.totalAmount
    estimatedMass := result.estimatedMass
    strategy := result.strategy
    warnings := result.warnings
    strategiesAttempted := strategiesAttempted
    freshUtxosUsed := (result.utxos.filter (fun u => u.metadata.isFresh)).length }

/-- UTXOSelector.selectOptimal: filter out fresh UTXOs, then try hybrid,
age-based and amount-based in order; first non-null result wins. -/
def UTXOSelector.selectOptimal (cfg : UTXOManagerConfig) (utxos : List EnrichedUTXO)
    (targetAmount : Int) (maxInputs : Nat) (maxMass : ℚ) : Except String SelectedUTXOs :=
  let matureUtxos := utxos.filter (fun u => !u.metadata.isFresh)
  if matureUtxos.length = 0 then
    .error "All UTXOs are too fresh"
  else
    let selectableUtxos := matureUtxos
    match HybridStrategy.select cfg selectableUtxos targetAmount maxInputs maxMass with
    | some result => .ok (wrapResult result ["hybrid"])
    | none =>
      match AgeBasedStrategy.select selectableUtxos targetAmount maxInputs maxMass with
      | some result => .ok (wrapResult result ["hybrid", "age-based"])
      | none =>
        match AmountBasedStrategy.select selectableUtxos targetAmount maxInputs maxMass with
        | some result => .ok (wrapResult result ["hybrid", "age-based", "amount-based"])
        | none => .error "Failed to select UTXOs: No strategy could satisfy requirements"

/-! ## UTXOFetcher enrichment (UTXOFetcher.ts) -/

/-- UTXOFetcher.enrichUTXO.  `ageInBlocks = currentDAA - blockDaaScore`
with BOTH scores as BigInt; the difference is converted by `Number(...)`
(exact for magnitudes below 2^53, which we model exactly as `Int`).  Note:
the source does NOT clamp the difference at zero. -/
def enrichUTXO (cfg : UTXOManagerConfig) (utxo : RawUTXO) (currentDAA : Int)
    (now : Int) : EnrichedUTXO :=
  let utxoDAA := utxo.utxoEntry.blockDaaScore
  let ageInBlocks := currentDAA - utxoDAA
  let isFresh := decide (ageInBlocks < cfg.minUtxoAgeBlocks)
  { outpoint := utxo.outpoint
    utxoEntry := utxo.utxoEntry
    metadata :=
      { fetchedAt := now
        ageInBlocks := ageInBlocks
        isFresh := isFresh
        estimatedMassContribution := 200 } }

/-! ## Retrying fetch of the UTXO list (UTXOFetcher.fetchWithRetry)

The HTTP endpoint is an external collaborator; we model the outcome of each
attempt with an oracle `responses : Nat → FetchAttempt`.  A response whose
body is missing or not an array raises "Invalid UTXO response format"
inside the try block, so it is retried like a network error. -/

/-- Wire-format outpoint with possibly missing fields. -/
structure WireOutpoint where
  transactionId : Option String
  index : Option Nat
deriving DecidableEq, Repr

/-- Wire-format utxoEntry; only `amount` is inspected by the filter. -/
structure WireUtxoEntry where
  amount : Option String
deriving DecidableEq, Repr

/-- Wire-format UTXO as delivered by GET /addresses/.../utxos. -/
structure WireUTXO where
  outpoint : Option WireOutpoint
  utxoEntry : Option WireUtxoEntry
deriving DecidableEq, Repr

/-- JavaScript truthiness of an optional string: present and non-empty. -/
def jsTruthyStr : Option String → Bool
  | none => false
  | some s => decide (s ≠ "")

/-- The validity filter of fetchWithRetry:
`utxo.outpoint?.transactionId && utxo.outpoint?.index !== undefined &&
utxo.utxoEntry?.amount`. -/
def isValidWireUTXO (u : WireUTXO) : Bool :=
  (match u.outpoint with
   | some o => jsTruthyStr o.transactionId && o.index.isSome
   | none => false) &&
  (match u.utxoEntry with
   | some e => jsTruthyStr e.amount
   | none => false)

/-- Outcome of one HTTP attempt against the UTXO-list endpoint. -/
inductive FetchAttempt where
  | netError (message : String) : FetchAttempt
  | badFormat : FetchAttempt
  | ok (data : List WireUTXO) : FetchAttempt
deriving DecidableEq, Repr

/-- The error message an attempt contributes as `lastError`. -/
def FetchAttempt.failureMessage : FetchAttempt → String
  | .netError message => message
  | .badFormat => "Invalid UTXO response format"
  | .ok _ => ""

/-- True when the attempt returns an array body. -/
def FetchAttempt.isOk : FetchAttempt → Bool
  | .ok _ => true
  | _ => false

/-- Result of fetchWithRetry together with the observable effort: how many
attempts were issued and which backoff sleeps were performed. -/
structure FetchOutcome where
  result : Except String (List WireUTXO)
  attemptsMade : Nat
  delaysMs : List Nat
deriving Repr

/-- The retry loop of fetchWithRetry.  `remaining` counts attempts still
allowed (initially `maxRetries`), `attempt` is the 0-based index of the
next attempt.  On failure with attempts left, sleep 2^attempt × 1000 ms. -/
def fetchLoop (responses : Nat → FetchAttempt) (maxRetries : Nat) :
    Nat → Nat → Option String → List Nat → FetchOutcome
  | 0, attempt, lastError, delays =>
    { result := .error ("Failed to fetch UTXOs after " ++ toString maxRetries ++
        " attempts: " ++ lastError.getD "undefined")
      attemptsMade := attempt
      delaysMs := delays }
  | remaining + 1, attempt, _, delays =>
    match responses attempt with
    | .ok data =>
      { result := .ok (data.filter isValidWireUTXO)
        attemptsMade := attempt + 1
        delaysMs := delays }
    | failure =>
      let lastError := failure.failureMessage
      let delays' :=
        if attempt < maxRetries - 1 then delays ++ [2 ^ attempt * 1000] else delays
      fetchLoop responses maxRetries remaining (attempt + 1) (some lastError) delays'

/-- UTXOFetcher.fetchWithRetry with its default of 3 attempts. -/
def fetchWithRetry (responses : Nat → FetchAttempt) (maxRetries : Nat := 3) : FetchOutcome :=
  fetchLoop responses maxRetries maxRetries 0 none []

/-! ## MassEstimator (MassEstimator.ts) -/

/-- MassEstimate with its breakdown. -/
structure MassEstimate where
  estimatedMass : Nat
  maxAllowedMass : ℚ
  inputsMass : Nat
  outputsMass : Nat
  overheadMass : Nat
  isWithinLimit : Bool
  utilizationPercent : ℚ
deriving DecidableEq, Repr

/-- MassEstimator.estimateMass: 200/input + 50/output + 100 overhead,
compared against maxMassBytes × massLimitBuffer. -/
def MassEstimator.estimateMass (cfg : UTXOManagerConfig) (inputCount outputCount : Nat) :
    MassEstimate :=
  let inputsMass := inputCount * 200
  let outputsMass := outputCount * 50
  let overheadMass := 100
  let estimatedMass := inputsMass + outputsMass + overheadMass
  let maxAllowedMass := cfg.maxMassBytes
  let effectiveLimit := cfg.maxMassBytes * cfg.massLimitBuffer
  { estimatedMass := estimatedMass
    maxAllowedMass := maxAllowedMass
    inputsMass := inputsMass
    outputsMass := outputsMass
    overheadMass := overheadMass
    isWithinLimit := decide ((estimatedMass : ℚ) ≤ effectiveLimit)
    utilizationPercent := (estimatedMass : ℚ) / maxAllowedMass * 100 }

/-- MassEstimator.calculateMaxInputs: floor of the mass budget left for
inputs, capped at `maxInputsPerTx`.  Math.floor of a float is `Int.floor`
of the exact rational; the result can be negative for tiny budgets. -/
def MassEstimator.calculateMaxInputs (cfg : UTXOManagerConfig) (outputCount : Nat) : Int :=
  let outputsMass : ℚ := (outputCount : ℚ) * 50
  let overheadMass : ℚ := 100
  let effectiveLimit := cfg.maxMassBytes * cfg.massLimitBuffer
  let availableMassForInputs := effectiveLimit - outputsMass - overheadMass
  let maxInputs := Int.floor (availableMassForInputs / 200)
  min maxInputs (cfg.maxInputsPerTx : Int)

/-! ## UTXOCache (UTXOCache.ts)

The JS `Map<string, CacheEntry>` is modelled as a function map; wall-clock
time (`Date.now()`) is an explicit `now` argument to every operation that
reads it. -/

/-- A cache entry: the stored list plus its expiry stamp. -/
structure CacheEntry where
  utxos : List EnrichedUTXO
  expiresAt : Int
deriving DecidableEq, Repr

/-- The cache state: TTL plus the map. -/
structure UTXOCache where
  ttlMs : Int
  cache : String → Option CacheEntry

/-- UTXOCache.getCacheKey: "network:address". -/
def getCacheKey (address : String) (network : Network) : String :=
  network.str ++ ":" ++ address

/-- UTXOCache.get: miss on absent key; on `now > expiresAt` delete the
entry and miss; otherwise hit.  Returns the value and the new state. -/
def UTXOCache.get (c : UTXOCache) (address : String) (network : Network) (now : Int) :
    Option (List EnrichedUTXO) × UTXOCache :=
  let key := getCacheKey address network
  match c.cache key with
  | none => (none, c)
  | some entry =>
    if entry.expiresAt < now then
      (none, { c with cache := fun k => if k = key then none else c.cache k })
    else
      (some entry.utxos, c)

/-- UTXOCache.set: stamp expiresAt = now + ttl and store. -/
def UTXOCache.set (c : UTXOCache) (address : String) (network : Network)
    (utxos : List EnrichedUTXO) (now : Int) : UTXOCache :=
  let key := getCacheKey address network
  let entry : CacheEntry := { utxos := utxos, expiresAt := now + c.ttlMs }
  { c with cache := fun k => if k = key then some entry else c.cache k }

/-- UTXOCache.invalidate: delete the key. -/
def UTXOCache.invalidate (c : UTXOCache) (address : String) (network : Network) : UTXOCache :=
  let key := getCacheKey address network
  { c with cache := fun k => if k = key then none else c.cache k }

/-- UTXOCache.has: definitionally get ≠ null, with get's expiry
side-effect. -/
def UTXOCache.has (c : UTXOCache) (address : String) (network : Network) (now : Int) :
    Bool × UTXOCache :=
  let r := c.get address network now
  (r.1.isSome, r.2)

/-! ## UTXOManager lock table (UTXOManager.ts) -/

/-- Why a UTXO is locked. -/
inductive LockReason where
  | payment : LockReason
  | consolidation : LockReason
deriving DecidableEq, Repr

/-- A lock table entry. -/
structure UTXOLock where
  utxoId : String
  lockedAt : Int
  expiresAt : Int
  reason : LockReason
deriving DecidableEq, Repr

/-- The process-wide lock table, keyed by "txId:index". -/
structure LockTable where
  locks : String → Option UTXOLock

/-- The lock key of a UTXO. -/
def utxoLockId (u : EnrichedUTXO) : String :=
  u.outpoint.transactionId ++ ":" ++ toString u.outpoint.index

/-- UTXOManager.lockUTXO: store a lock expiring at now + ttl. -/
def LockTable.lockUTXO (t : LockTable) (u : EnrichedUTXO) (ttlMs : Int)
    (reason : LockReason) (now : Int) : LockTable :=
  let key := utxoLockId u
  let lock : UTXOLock := { utxoId := key, lockedAt := now, expiresAt := now + ttlMs, reason := reason }
  { locks := fun k => if k = key then some lock else t.locks k }

/-- UTXOManager.unlockUTXO: delete the lock (Map.delete is a no-op on an
absent key). -/
def LockTable.unlockUTXO (t : LockTable) (u : EnrichedUTXO) : LockTable :=
  let key := utxoLockId u
  { locks := fun k => if k = key then none else t.locks k }

/-- UTXOManager.isLocked: absent key is unlocked; a stale lock
(now > expiresAt) is deleted on read and reported unlocked. -/
def LockTable.isLocked (t : LockTable) (u : EnrichedUTXO) (now : Int) : Bool × LockTable :=
  let key := utxoLockId u
  match t.locks key with
  | none => (false, t)
  | some lock =>
    if lock.expiresAt < now then
      (false, { locks := fun k => if k = key then none else t.locks k })
    else
      (true, t)

/-! ## UTXOConsolidator (UTXOConsolidator.ts) -/

/-- ConsolidationResult. -/
structure ConsolidationResult where
  success : Bool
  txid : Option String
  utxosConsolidated : Nat
  beforeCount : Nat
  afterCount : Nat
deriving DecidableEq, Repr

/-- The `while (maxInputs > 1)` loop that linearly reduces the input count
until `estimateMass(maxInputs, 1)` is within limit. -/
def reduceInputsForMass (cfg : UTXOManagerConfig) : Nat → Nat
  | 0 => 0
  | 1 => 1
  | n + 2 =>
    if (MassEstimator.estimateMass cfg (n + 2) 1).isWithinLimit then n + 2
    else reduceInputsForMass cfg (n + 1)

/-- UTXOConsolidator.selectConsolidationCandidates: mature (age ≥ 10,
hardcoded) and small (< 1 KAS), oldest first, at most maxInputsPerTx,
then reduced until within the mass limit for one output. -/
def selectConsolidationCandidates (cfg : UTXOManagerConfig) (utxos : List EnrichedUTXO) :
    List EnrichedUTXO :=
  let candidates := utxos.filter (fun u =>
    decide (10 ≤ u.metadata.ageInBlocks) && decide (u.utxoEntry.amount < kasToSompiOne))
  let sorted := sortByAgeDesc candidates
  let limited := sorted.take cfg.maxInputsPerTx
  if (MassEstimator.estimateMass cfg limited.length 1).isWithinLimit then limited
  else limited.take (reduceInputsForMass cfg limited.length)

/-- UTXOConsolidator.consolidate, from the point where the force-refreshed
UTXO list is in hand.  The injected transaction builder is modelled by its
outcome `createTx` (a broadcast id or a rejection); the returned Bool
records whether the builder was invoked, and the cache is threaded to
observe the invalidation on success. -/
def UTXOConsolidator.consolidate (cfg : UTXOManagerConfig) (cache : UTXOCache)
    (address : String) (network : Network) (utxos : List EnrichedUTXO)
    (createTx : Except String String) : ConsolidationResult × UTXOCache × Bool :=
  let beforeCount := utxos.length
  let candidates := selectConsolidationCandidates cfg utxos
  if candidates.length < 2 then
    ({ success := false, txid := none, utxosConsolidated := 0,
       beforeCount := beforeCount, afterCount := beforeCount }, cache, false)
  else
    let totalAmount := (candidates.map (fun u => u.utxoEntry.amount)).sum
    let feeSompi : Int := 10000
    let amountToSend := totalAmount - feeSompi
    if amountToSend ≤ 0 then
      ({ success := false, txid := none, utxosConsolidated := 0,
         beforeCount := beforeCount, afterCount := beforeCount }, cache, false)
    else
      match createTx with
      | .ok txid =>
        ({ success := true, txid := some txid, utxosConsolidated := candidates.length,
           beforeCount := beforeCount, afterCount := beforeCount - candidates.length + 1 },
         cache.invalidate address network, true)
      | .error _ =>
        ({ success := false, txid := none, utxosConsolidated := 0,
           beforeCount := beforeCount, afterCount := beforeCount }, cache, true)

/-! ## Fragmentation score (UTXOConsolidator.calculateFragmentationScore)

This computation runs on IEEE doubles and can produce NaN; we model the
float domain as exact rationals extended with NaN and signed infinity, and
parametrize over the square root (irrational in general).  All values that
actually arise are non-negative. -/

/-- A JavaScript number: NaN, ±Infinity, or a finite value. -/
inductive JsNum where
  | nan : JsNum
  | posInf : JsNum
  | negInf : JsNum
  | fin : ℚ → JsNum
deriving DecidableEq, Repr

/-- JS division for the values arising here: 0/0 is NaN, x/0 is signed
infinity, otherwise exact. -/
def jsDiv (x y : ℚ) : JsNum :=
  if y = 0 then
    if x = 0 then .nan else if 0 < x then .posInf else .negInf
  else .fin (x / y)

/-- Math.min against a finite constant: NaN-propagating. -/
def jsMin (a : JsNum) (b : ℚ) : JsNum :=
  match a with
  | .nan => .nan
  | .posInf => .fin b
  | .negInf => .negInf
  | .fin q => .fin (min q b)

/-- Multiplication by a positive finite constant. -/
def jsMulPos (a : JsNum) (b : ℚ) : JsNum :=
  match a with
  | .nan => .nan
  | .posInf => .posInf
  | .negInf => .negInf
  | .fin q => .fin (q * b)

/-- Addition of a finite value. -/
def jsAddFin (a : ℚ) (b : JsNum) : JsNum :=
  match b with
  | .nan => .nan
  | .posInf => .posInf
  | .negInf => .negInf
  | .fin q => .fin (a + q)

/-- Math.round: floor(x + 1/2) on finite values, NaN on NaN. -/
def jsRound (a : JsNum) : JsNum :=
  match a with
  | .nan => .nan
  | .posInf => .posInf
  | .negInf => .negInf
  | .fin q => .fin (Int.floor (q + 1 / 2) : ℚ)

/-- UTXOConsolidator.calculateFragmentationScore.  `jsSqrt` stands for
Math.sqrt on the exact variance (which the caller must relate to the IEEE
value; for the inputs we reason about the variance is 0 and sqrt is
exact).  Amounts are scaled by BigInt division through 10^6 before the
float part. -/
def calculateFragmentationScore (jsSqrt : ℚ → ℚ) (utxos : List EnrichedUTXO) : JsNum :=
  if utxos.length = 0 then .fin 0
  else
    let n : ℚ := utxos.length
    let utxoCountScore := min (n / 20) 1 * 40
    let smallUtxos := utxos.filter (fun u => decide (u.utxoEntry.amount < kasToSompiOne))
    let smallUtxoScore := ((smallUtxos.length : ℚ) / n) * 30
    let amounts := utxos.map (fun u => ((Int.tdiv u.utxoEntry.amount 1000000 : Int) : ℚ))
    let mean := amounts.sum / n
    let variance := (amounts.map (fun a => (a - mean) ^ 2)).sum / n
    let stdDev := jsSqrt variance
    let varianceScore := jsMulPos (jsMin (jsDiv stdDev mean) 1) 30
    jsRound (jsAddFin (utxoCountScore + smallUtxoScore) varianceScore)

/-! ## UTXOManager.getWalletHealth (estimatedMaxPayment)

The pure tail of getWalletHealth: sort the fetched UTXOs by descending
amount and sum the first `calculateMaxInputs(2)` of them.  `Array.slice`
interprets a negative end relative to the end of the array. -/

/-- JavaScript `arr.slice(0, e)` for an integer end index. -/
def jsSliceTo (l : List EnrichedUTXO) (e : Int) : List EnrichedUTXO :=
  if e < 0 then l.take (((l.length : Int) + e).toNat) else l.take e.toNat

/-- The `estimatedMaxPayment` field computed by UTXOManager.getWalletHealth
on a non-empty fetched list. -/
def walletHealthEstimatedMaxPayment (cfg : UTXOManagerConfig)
    (utxos : List EnrichedUTXO) : Int :=
  let maxInputs := MassEstimator.calculateMaxInputs cfg 2
  let sortedByAmount := sortByAmountDesc utxos
  ((jsSliceTo sortedByAmount maxInputs).map (fun u => u.utxoEntry.amount)).sum

/-! ## Concrete instances used in closed statements -/

/-- A mature UTXO worth 100 sompi, 20 blocks old. -/
def utxoA : EnrichedUTXO :=
  { outpoint := { transactionId := "aa", index := 0 }
    utxoEntry := { amount := 100, scriptPublicKey := { version := 0, scriptPublicKey := "" },
                   blockDaaScore := 0, isCoinbase := false }
    metadata := { fetchedAt := 0, ageInBlocks := 20, isFresh := false,
                  estimatedMassContribution := 200 } }

/-- A mature UTXO worth 200 sompi, 12 blocks old. -/
def utxoB : EnrichedUTXO :=
  { outpoint := { transactionId := "bb", index := 1 }
    utxoEntry := { amount := 200, scriptPublicKey := { version := 0, scriptPublicKey := "" },
                   blockDaaScore := 8, isCoinbase := false }
    metadata := { fetchedAt := 0, ageInBlocks := 12, isFresh := false,
                  estimatedMassContribution := 200 } }

/-- A raw UTXO created at DAA score 5, to be enriched against a virtual
score of 0 (the fallback value when the DAA fetch fails). -/
def rawC2 : RawUTXO :=
  { outpoint := { transactionId := "cc", index := 2 }
    utxoEntry := { amount := 100, scriptPublicKey := { version := 0, scriptPublicKey := "" },
                   blockDaaScore := 5, isCoinbase := false } }

/-- The selection that hybrid produces on the single candidate utxoA. -/
def rC1 : SelectionResult :=
  { utxos := [utxoA], totalAmount := 100, estimatedMass := 350,
    strategy := "hybrid", warnings := [] }

/-- The wrapped selector output on the single candidate utxoB. -/
def sC3 : SelectedUTXOs :=
  wrapResult { utxos := [utxoB], totalAmount := 200, estimatedMass := 350,
               strategy := "hybrid", warnings := [] } ["hybrid"]

/-- A UTXO whose amount (500000 sompi) is below the 10^6 scaling divisor
of the fragmentation score. -/
def uTiny : EnrichedUTXO :=
  { outpoint := { transactionId := "dd", index := 3 }
    utxoEntry := { amount := 500000, scriptPublicKey := { version := 0, scriptPublicKey := "" },
                   blockDaaScore := 0, isCoinbase := false }
    metadata := { fetchedAt := 0, ageInBlocks := 20, isFresh := false,
                  estimatedMassContribution := 200 } }

/-- A configuration whose mass budget supports only 4 inputs although
maxInputsPerTx is 5. -/
def cfgC5 : UTXOManagerConfig :=
  { minUtxoAgeBlocks := 10
    maxInputsPerTx := 5
    consolidationThreshold := 10
    massLimitBuffer := 1
    maxMassBytes := 1000
    cacheExpiryMs := 10000 }

/-- One of five equal-amount UTXOs, distinguished by outpoint index. -/
def utxo100 (i : Nat) : EnrichedUTXO :=
  { outpoint := { transactionId := "ee", index := i }
    utxoEntry := { amount := 100, scriptPublicKey := { version := 0, scriptPublicKey := "" },
                   blockDaaScore := 0, isCoinbase := false }
    metadata := { fetchedAt := 0, ageInBlocks := 20, isFresh := false,
                  estimatedMassContribution := 200 } }

/-- Five equal 100-sompi UTXOs. -/
def utxos5 : List EnrichedUTXO := [utxo100 0, utxo100 1, utxo100 2, utxo100 3, utxo100 4]

/-- An empty cache with the default 10 s TTL. -/
def emptyCache : UTXOCache := { ttlMs := 10000, cache := fun _ => none }

/-- An empty lock table. -/
def emptyLocks : LockTable := { locks := fun _ => none }

/-- A small mature UTXO suitable for consolidation. -/
def utxoD : EnrichedUTXO :=
  { outpoint := { transactionId := "ff", index := 4 }
    utxoEntry := { amount := 50000, scriptPublicKey := { version := 0, scriptPublicKey := "" },
                   blockDaaScore := 0, isCoinbase := false }
    metadata := { fetchedAt := 0, ageInBlocks := 20, isFresh := false,
                  estimatedMassContribution := 200 } }

/-- A second small mature UTXO suitable for consolidation. -/
def utxoE : EnrichedUTXO :=
  { outpoint := { transactionId := "gg", index := 5 }
    utxoEntry := { amount := 50000, scriptPublicKey := { version := 0, scriptPublicKey := "" },
                   blockDaaScore := 0, isCoinbase := false }
    metadata := { fetchedAt := 0, ageInBlocks := 15, isFresh := false,
                  estimatedMassContribution := 200 } }

/-! ## Helper lemmas -/

/-- The normal-form 0.9 equals 9/10. -/
theorem ratNineTenths_eq : ratNineTenths = 9 / 10 := by
  rw [ratNineTenths, Rat.mk'_eq_divInt, Rat.divInt_eq_div]
  norm_num

/-- Sorting by descending amount is a permutation. -/
theorem sortByAmountDesc_perm (l : List EnrichedUTXO) : (sortByAmountDesc l).Perm l :=
  List.perm_insertionSort amountGE l

/-- Sorting by descending amount is sorted for the descending-amount order. -/
theorem sortByAmountDesc_sorted (l : List EnrichedUTXO) :
    (sortByAmountDesc l).Sorted amountGE :=
  List.sorted_insertionSort amountGE l

/-- Sorting by descending age is a permutation. -/
theorem sortByAgeDesc_perm (l : List EnrichedUTXO) : (sortByAgeDesc l).Perm l :=
  List.perm_insertionSort ageGE l

/-- The scoring wrapper keeps the underlying UTXO. -/
@[simp] theorem scoreUTXO_utxo (cfg : UTXOManagerConfig) (u : EnrichedUTXO) (t : Int) :
    (scoreUTXO cfg u t).utxo = u := rfl

/-- The UTXO list handed to hybrid's greedy loop is a permutation of its
candidates. -/
theorem hybrid_sorted_perm (cfg : UTXOManagerConfig) (utxos : List EnrichedUTXO) (t : Int) :
    (((utxos.map (fun u => scoreUTXO cfg u t)).insertionSort scoreGE).map
      (fun s => s.utxo)).Perm utxos := by
  have h1 := (List.perm_insertionSort scoreGE (utxos.map (fun u => scoreUTXO cfg u t))).map
    (fun s : ScoredUTXO => s.utxo)
  rw [List.map_map] at h1
  have h2 : utxos.map ((fun s : ScoredUTXO => s.utxo) ∘ fun u => scoreUTXO cfg u t) = utxos := by
    simp [Function.comp_def]
  rwa [h2] at h1

/-- The combined mature ++ fresh list of the age-based fallback is a
permutation of its candidates. -/
theorem age_combined_perm (utxos : List EnrichedUTXO) :
    (sortByAgeDesc (utxos.filter (fun u => !u.metadata.isFresh)) ++
      sortByAgeDesc (utxos.filter (fun u => u.metadata.isFresh))).Perm utxos := by
  have h1 := sortByAgeDesc_perm (utxos.filter (fun u => !u.metadata.isFresh))
  have h2 := sortByAgeDesc_perm (utxos.filter (fun u => u.metadata.isFresh))
  refine (h1.append h2).trans ?_
  have h3 := List.filter_append_perm (fun u : EnrichedUTXO => !u.metadata.isFresh) utxos
  simpa using h3

/-- Invariants of the greedy loop: any successful result extends the
selection by a non-empty prefix of the remaining list, reaches the target,
and respects the input and mass ceilings. -/
theorem greedyLoop_spec (name : String) (target : Int) (mi : Nat) (mm : ℚ) :
    ∀ (rest selected : List EnrichedUTXO) (total : Int) (mass : Nat) (r : SelectionResult),
      greedyLoop name target mi mm rest selected total mass = some r →
      (∃ k, 0 < k ∧ r.utxos = selected ++ rest.take k) ∧
      target ≤ r.totalAmount ∧ r.utxos.length ≤ mi ∧ (r.estimatedMass : ℚ) ≤ mm := by
  intro rest
  induction rest with
  | nil =>
    intro selected total mass r h
    simp [greedyLoop] at h
  | cons utxo rest ih =>
    intro selected total mass r h
    simp only [greedyLoop] at h
    split at h
    · exact Option.noConfusion h
    · rename_i h1
      split at h
      · exact Option.noConfusion h
      · rename_i h2
        split at h
        · rename_i h3
          injection h with hval
          subst hval
          refine ⟨⟨1, Nat.one_pos, by simp⟩, h3, ?_, not_lt.mp h2⟩
          have hlt : selected.length < mi := Nat.lt_of_not_le h1
          simpa using hlt
        · rename_i h3
          obtain ⟨⟨k, hk, hutxos⟩, ht, hlen, hmass⟩ := ih _ _ _ _ h
          refine ⟨⟨k + 1, Nat.succ_pos k, ?_⟩, ht, hlen, hmass⟩
          simp [hutxos, List.take_succ_cons]

/-- Specification of greedySelect: the result is a non-empty prefix of the
sorted candidates and honours target, input and mass limits. -/
theorem greedySelect_spec {name : String} {sorted : List EnrichedUTXO} {target : Int}
    {mi : Nat} {mm : ℚ} {r : SelectionResult}
    (h : greedySelect name sorted target mi mm = some r) :
    (∃ k, 0 < k ∧ r.utxos = sorted.take k) ∧
      target ≤ r.totalAmount ∧ r.utxos.length ≤ mi ∧ (r.estimatedMass : ℚ) ≤ mm := by
  have hs := greedyLoop_spec name target mi mm sorted [] 0 100 r h
  simpa using hs

/-- A successful greedy result is a sublist of the sorted candidates. -/
theorem greedySelect_sublist {name : String} {sorted : List EnrichedUTXO} {target : Int}
    {mi : Nat} {mm : ℚ} {r : SelectionResult}
    (h : greedySelect name sorted target mi mm = some r) : r.utxos.Sublist sorted := by
  obtain ⟨⟨k, _, hu⟩, _⟩ := greedySelect_spec h
  rw [hu]
  exact List.take_sublist k sorted

/-- Membership transfer along a sublist of a permutation. -/
theorem mem_of_sublist_perm {res l' l : List EnrichedUTXO}
    (hs : res.Sublist l') (hp : l'.Perm l) : ∀ u ∈ res, u ∈ l :=
  fun u hu => hp.mem_iff.mp (hs.subset hu)

/-- Outpoint-distinctness transfer along a sublist of a permutation. -/
theorem nodup_map_of_sublist_perm {res l' l : List EnrichedUTXO}
    (hs : res.Sublist l') (hp : l'.Perm l)
    (h : (l.map (fun u => u.outpoint)).Nodup) : (res.map (fun u => u.outpoint)).Nodup :=
  ((hp.map (fun u => u.outpoint)).nodup_iff.mpr h).sublist (hs.map (fun u => u.outpoint))

/-- Master specification of the three strategies' select methods.  Every
returned selection reaches the target, draws from the candidates, and
preserves outpoint distinctness; the input and mass ceilings are honoured
except on the amount-based single-UTXO fast path (which fires exactly when
some candidate covers the target and always returns one UTXO). -/
theorem strategy_select_spec (s : Strategy) (cfg : UTXOManagerConfig)
    (utxos : List EnrichedUTXO) (target : Int) (mi : Nat) (mm : ℚ) (r : SelectionResult)
    (h : s.runSelect cfg utxos target mi mm = some r) :
    target ≤ r.totalAmount ∧
    (∀ u ∈ r.utxos, u ∈ utxos) ∧
    ((utxos.map (fun u => u.outpoint)).Nodup → (r.utxos.map (fun u => u.outpoint)).Nodup) ∧
    ((s = .amountBased ∧ (∃ u ∈ utxos, target ≤ u.utxoEntry.amount) ∧ r.utxos.length = 1) ∨
      (r.utxos.length ≤ mi ∧ (r.estimatedMass : ℚ) ≤ mm)) := by
  cases s with
  | hybrid =>
    simp only [Strategy.runSelect, HybridStrategy.select] at h
    split at h
    · exact Option.noConfusion h
    · obtain ⟨⟨k, hk, hu⟩, ht, hlen, hmass⟩ := greedySelect_spec h
      have hsub := greedySelect_sublist h
      have hperm := hybrid_sorted_perm cfg utxos target
      exact ⟨ht, mem_of_sublist_perm hsub hperm,
        nodup_map_of_sublist_perm hsub hperm, Or.inr ⟨hlen, hmass⟩⟩
  | ageBased =>
    simp only [Strategy.runSelect, AgeBasedStrategy.select] at h
    split at h
    · exact Option.noConfusion h
    · split at h
      · rename_i result hfirst
        injection h with hval
        subst hval
        rw [show (if 0 < (sortByAgeDesc (utxos.filter (fun u => !u.metadata.isFresh))).length
              then greedySelect "age-based"
                (sortByAgeDesc (utxos.filter (fun u => !u.metadata.isFresh))) target mi mm
              else none) = some result ↔
            greedySelect "age-based"
              (sortByAgeDesc (utxos.filter (fun u => !u.metadata.isFresh))) target mi mm =
              some result from by split <;> simp_all] at hfirst
        obtain ⟨⟨k, hk, hu⟩, ht, hlen, hmass⟩ := greedySelect_spec hfirst
        have hsub := greedySelect_sublist hfirst
        have hperm := (sortByAgeDesc_perm (utxos.filter (fun u => !u.metadata.isFresh)))
        have hmem : ∀ u ∈ result.utxos, u ∈ utxos := fun u hu' =>
          List.mem_of_mem_filter (mem_of_sublist_perm hsub hperm u hu')
        have hnodup : (utxos.map (fun u => u.outpoint)).Nodup →
            (result.utxos.map (fun u => u.outpoint)).Nodup := by
          intro hn
          refine nodup_map_of_sublist_perm hsub hperm ?_
          exact hn.sublist ((List.filter_sublist utxos).map (fun u => u.outpoint))
        exact ⟨ht, hmem, hnodup, Or.inr ⟨hlen, hmass⟩⟩
      · split at h
        · split at h
          · rename_i result2 hsecond
            injection h with hval
            subst hval
            obtain ⟨⟨k, hk, hu⟩, ht, hlen, hmass⟩ := greedySelect_spec hsecond
            have hsub := greedySelect_sublist hsecond
            have hperm := age_combined_perm utxos
            exact ⟨ht, mem_of_sublist_perm hsub hperm,
              nodup_map_of_sublist_perm hsub hperm, Or.inr ⟨hlen, hmass⟩⟩
          · exact Option.noConfusion h
        · exact Option.noConfusion h
  | amountBased =>
    simp only [Strategy.runSelect, AmountBasedStrategy.select] at h
    split at h
    · exact Option.noConfusion h
    · split at h
      · rename_i singleUTXO hfind
        injection h with hval
        subst hval
        have hpred := List.find?_some hfind
        have hcover : target ≤ singleUTXO.utxoEntry.amount := by simpa using hpred
        have hmem : singleUTXO ∈ utxos :=
          (sortByAmountDesc_perm utxos).mem_iff.mp (List.mem_of_find?_eq_some hfind)
        refine ⟨hcover, ?_, ?_, Or.inl ⟨rfl, ⟨singleUTXO, hmem, hcover⟩, rfl⟩⟩
        · intro u hu
          simp only [buildResult, List.mem_singleton] at hu
          subst hu
          exact hmem
        · intro _
          simp [buildResult]
      · obtain ⟨⟨k, hk, hu⟩, ht, hlen, hmass⟩ := greedySelect_spec h
        have hsub := greedySelect_sublist h
        have hperm := sortByAmountDesc_perm utxos
        exact ⟨ht, mem_of_sublist_perm hsub hperm,
          nodup_map_of_sublist_perm hsub hperm, Or.inr ⟨hlen, hmass⟩⟩

/-! ## Claim theorems -/

/-- C1 (amended): for every strategy, candidate list, target, maxInputs and
maxMass, a returned SelectionResult r satisfies r.totalAmount ≥ target,
r.utxos ⊆ candidates, and distinct candidate outpoints stay distinct in
r.utxos; the bounds r.utxos.length ≤ maxInputs and r.estimatedMass ≤
maxMass hold on every greedy path, but the amount-based single-UTXO fast
path (taken exactly when some candidate covers the target) returns one
UTXO regardless of maxInputs and maxMass. -/
theorem C1_selection_invariants (s : Strategy) (cfg : UTXOManagerConfig)
    (utxos : List EnrichedUTXO) (target : Int) (maxInputs : Nat) (maxMass : ℚ)
    (r : SelectionResult) (h : s.runSelect cfg utxos target maxInputs maxMass = some r) :
    target ≤ r.totalAmount ∧
    (∀ u ∈ r.utxos, u ∈ utxos) ∧
    ((utxos.map (fun u => u.outpoint)).Nodup → (r.utxos.map (fun u => u.outpoint)).Nodup) ∧
    ((s = .amountBased ∧ (∃ u ∈ utxos, target ≤ u.utxoEntry.amount) ∧ r.utxos.length = 1) ∨
      (r.utxos.length ≤ maxInputs ∧ (r.estimatedMass : ℚ) ≤ maxMass)) :=
  strategy_select_spec s cfg utxos target maxInputs maxMass r h

/-- C1 counterexample: with maxInputs = 0 the amount-based strategy still
returns a 1-input selection via the single-UTXO fast path, so the claimed
bound r.utxos.length ≤ maxInputs fails. -/
theorem C1_counterexample :
    Strategy.runSelect .amountBased DEFAULT_UTXO_CONFIG [utxoA] 100 0 1000 =
      some (buildResult "amount-based" utxoA) ∧
    (buildResult "amount-based" utxoA).utxos.length = 1 ∧ ¬ ((1 : Nat) ≤ 0) :=
  ⟨rfl, rfl, by decide⟩

/-- C1 witness: the amended invariants instantiated on the hybrid strategy
with one mature candidate. -/
theorem C1_witness :
    Strategy.runSelect .hybrid DEFAULT_UTXO_CONFIG [utxoA] 50 5 90000 = some rC1 ∧
    (50 : Int) ≤ rC1.totalAmount ∧ rC1.utxos.length ≤ 5 := by
  have h : Strategy.runSelect .hybrid DEFAULT_UTXO_CONFIG [utxoA] 50 5 90000 = some rC1 := rfl
  obtain ⟨ht, _, _, hd⟩ :=
    C1_selection_invariants .hybrid DEFAULT_UTXO_CONFIG [utxoA] 50 5 90000 rC1 h
  refine ⟨h, ht, ?_⟩
  rcases hd with ⟨hs, _⟩ | ⟨hlen, _⟩
  · exact absurd hs (by decide)
  · exact hlen

/-- C2 (amended): enrichUTXO computes ageInBlocks = virtualDAA −
blockDaaScore with no clamping (it can be negative), isFresh holds exactly
when that difference is below minUtxoAgeBlocks, and the estimated mass
contribution is the constant 200. -/
theorem C2_enrich_spec (cfg : UTXOManagerConfig) (raw : RawUTXO) (v now : Int) :
    (enrichUTXO cfg raw v now).metadata.ageInBlocks = v - raw.utxoEntry.blockDaaScore ∧
    ((enrichUTXO cfg raw v now).metadata.isFresh = true ↔
      (enrichUTXO cfg raw v now).metadata.ageInBlocks < cfg.minUtxoAgeBlocks) ∧
    (enrichUTXO cfg raw v now).metadata.estimatedMassContribution = 200 := by
  refine ⟨rfl, ?_, rfl⟩
  simp [enrichUTXO]

/-- C2 counterexample: against the fallback virtual score 0 a UTXO created
at DAA score 5 is given ageInBlocks = −5, not the claimed
max(0, v − blockDaaScore) = 0; in particular ageInBlocks < 0. -/
theorem C2_counterexample :
    (enrichUTXO DEFAULT_UTXO_CONFIG rawC2 0 0).metadata.ageInBlocks = -5 ∧
    max (0 : Int) (0 - rawC2.utxoEntry.blockDaaScore) = 0 ∧
    ((-5 : Int) < 0) :=
  ⟨rfl, by decide, by decide⟩

/-- C3: every UTXO in a successful selector result is non-fresh (fresh
candidates are filtered out before any strategy runs), and the
freshUtxosUsed telemetry field is therefore 0. -/
theorem C3_selector_no_fresh (cfg : UTXOManagerConfig) (utxos : List EnrichedUTXO)
    (target : Int) (maxInputs : Nat) (maxMass : ℚ) (s : SelectedUTXOs)
    (h : UTXOSelector.selectOptimal cfg utxos target maxInputs maxMass = Except.ok s) :
    (∀ u ∈ s.utxos, u.metadata.isFresh = false) ∧ s.freshUtxosUsed = 0 := by
  have main : ∀ (result : SelectionResult) (names : List String),
      (∀ u ∈ result.utxos, u ∈ utxos.filter (fun u => !u.metadata.isFresh)) →
      s = wrapResult result names →
      (∀ u ∈ s.utxos, u.metadata.isFresh = false) ∧ s.freshUtxosUsed = 0 := by
    intro result names hmem hs
    have hfresh : ∀ u ∈ result.utxos, u.metadata.isFresh = false := by
      intro u hu
      have h2 := (List.mem_filter.mp (hmem u hu)).2
      simpa using h2
    subst hs
    constructor
    · intro u hu
      exact hfresh u (by simpa [wrapResult] using hu)
    · simp only [wrapResult]
      rw [List.filter_eq_nil_iff.mpr (by intro a ha; simp [hfresh a ha])]
      rfl
  simp only [UTXOSelector.selectOptimal] at h
  split at h
  · exact Except.noConfusion h
  · split at h
    · rename_i result hmatch
      injection h with hval
      obtain ⟨_, hmem, _, _⟩ := strategy_select_spec .hybrid cfg
        (utxos.filter (fun u => !u.metadata.isFresh)) target maxInputs maxMass result hmatch
      exact main result _ hmem hval.symm
    · split at h
      · rename_i result hmatch
        injection h with hval
        obtain ⟨_, hmem, _, _⟩ := strategy_select_spec .ageBased cfg
          (utxos.filter (fun u => !u.metadata.isFresh)) target maxInputs maxMass result hmatch
        exact main result _ hmem hval.symm
      · split at h
        · rename_i result hmatch
          injection h with hval
          obtain ⟨_, hmem, _, _⟩ := strategy_select_spec .amountBased cfg
            (utxos.filter (fun u => !u.metadata.isFresh)) target maxInputs maxMass result hmatch
          exact main result _ hmem hval.symm
        · exact Except.noConfusion h

/-- C3 witness: the selector run on one mature candidate. -/
theorem C3_witness :
    UTXOSelector.selectOptimal DEFAULT_UTXO_CONFIG [utxoB] 150 5 90000 = Except.ok sC3 ∧
    sC3.freshUtxosUsed = 0 := by
  have h : UTXOSelector.selectOptimal DEFAULT_UTXO_CONFIG [utxoB] 150 5 90000 =
      Except.ok sC3 := rfl
  exact ⟨h, (C3_selector_no_fresh DEFAULT_UTXO_CONFIG [utxoB] 150 5 90000 sC3 h).2⟩

/-- C10: whenever some candidate covers the target, AmountBasedStrategy
returns a one-element selection holding a candidate of maximal amount (not
the smallest covering one), independently of maxInputs and maxMass. -/
theorem C10_amount_single_path (utxos : List EnrichedUTXO) (target : Int)
    (hne : utxos ≠ []) (hcov : ∃ u ∈ utxos, target ≤ u.utxoEntry.amount) :
    ∃ w, w ∈ utxos ∧ (∀ u ∈ utxos, u.utxoEntry.amount ≤ w.utxoEntry.amount) ∧
      ∀ (maxInputs : Nat) (maxMass : ℚ),
        AmountBasedStrategy.select utxos target maxInputs maxMass =
          some (buildResult "amount-based" w) := by
  obtain ⟨u0, hu0, hcov0⟩ := hcov
  have hperm := sortByAmountDesc_perm utxos
  have hsorted := sortByAmountDesc_sorted utxos
  cases hsort : sortByAmountDesc utxos with
  | nil =>
    rw [hsort] at hperm
    exact absurd hperm.symm.eq_nil hne
  | cons w tl =>
    rw [hsort] at hperm hsorted
    have hwmax : ∀ u ∈ utxos, u.utxoEntry.amount ≤ w.utxoEntry.amount := by
      intro u hu
      have hmem : u ∈ w :: tl := hperm.mem_iff.mpr hu
      rcases List.mem_cons.mp hmem with rfl | htl
      · exact le_refl _
      · exact List.rel_of_sorted_cons hsorted u htl
    have hwmem : w ∈ utxos := hperm.mem_iff.mp (List.mem_cons_self w tl)
    have htw : target ≤ w.utxoEntry.amount := le_trans hcov0 (hwmax u0 hu0)
    refine ⟨w, hwmem, hwmax, ?_⟩
    intro maxInputs maxMass
    have hpw : (fun u : EnrichedUTXO => decide (target ≤ u.utxoEntry.amount)) w = true := by
      simpa using htw
    have hfind : List.find? (fun u : EnrichedUTXO => decide (target ≤ u.utxoEntry.amount))
        (w :: tl) = some w := List.find?_cons_of_pos tl hpw
    simp only [AmountBasedStrategy.select]
    rw [hsort, hfind]
    rw [if_neg (by simpa [List.isEmpty_iff] using hne)]

/-- C10 witness: with candidates worth 100 and 200 and target 150, the
single-UTXO path picks the 200-sompi UTXO whatever the limits are. -/
theorem C10_witness :
    AmountBasedStrategy.select [utxoA, utxoB] 150 5 90000 =
      some (buildResult "amount-based" utxoB) := by
  obtain ⟨w, hw, hmax, hsel⟩ := C10_amount_single_path [utxoA, utxoB] 150 (by simp)
    ⟨utxoB, by simp, by norm_num [utxoB]⟩
  have hw2 : w = utxoA ∨ w = utxoB := by simpa using hw
  rcases hw2 with rfl | rfl
  · have := hmax utxoB (by simp)
    exact absurd this (by norm_num [utxoA, utxoB])
  · exact hsel 5 90000

/-- Evaluation rule for calculateMaxInputs once the rational mass budget
divides out to an integer. -/
theorem calcMaxInputs_eval (cfg : UTXOManagerConfig) (o : Nat) (q : Int)
    (h : (cfg.maxMassBytes * cfg.massLimitBuffer - (o : ℚ) * 50 - 100) / 200 = (q : ℚ)) :
    MassEstimator.calculateMaxInputs cfg o = min q (cfg.maxInputsPerTx : Int) := by
  simp only [MassEstimator.calculateMaxInputs]
  rw [h, Int.floor_intCast]

/-- C4 (code bug): when every UTXO amount is below 10^6 sompi the scaled
amounts and their mean are all 0, the variance term divides 0 by 0, and
the score is NaN instead of the documented integer in [0, 100].  The
statement holds for every square-root model that is exact at 0, as IEEE
Math.sqrt is. -/
theorem C4_fragmentation_nan (jsSqrt : ℚ → ℚ) (h0 : jsSqrt 0 = 0) :
    calculateFragmentationScore jsSqrt [uTiny] = JsNum.nan := by
  simp only [calculateFragmentationScore]
  rw [if_neg (by decide)]
  have hd : ((Int.tdiv uTiny.utxoEntry.amount 1000000 : Int) : ℚ) = 0 := by
    have : Int.tdiv uTiny.utxoEntry.amount 1000000 = 0 := by decide
    rw [this]
    norm_num
  simp only [List.map_cons, List.map_nil, List.sum_cons, List.sum_nil, List.length_cons,
    List.length_nil, hd]
  norm_num [h0, jsDiv, jsMin, jsMulPos, jsAddFin, jsRound]

/-- C4 witness: the bug evaluated with the zero square root. -/
theorem C4_witness :
    calculateFragmentationScore (fun _ => 0) [uTiny] = JsNum.nan :=
  C4_fragmentation_nan (fun _ => 0) rfl

/-- C5 (amended): estimatedMaxPayment is the sum of the amounts of the top
calculateMaxInputs(2) UTXOs in descending-amount order (not the top
maxInputsPerTx), and it is the whole balance when the wallet holds no more
than that many UTXOs. -/
theorem C5_wallet_health_max_payment (cfg : UTXOManagerConfig) (utxos : List EnrichedUTXO) :
    (∃ sorted : List EnrichedUTXO, sorted.Perm utxos ∧ sorted.Sorted amountGE ∧
      walletHealthEstimatedMaxPayment cfg utxos =
        ((jsSliceTo sorted (MassEstimator.calculateMaxInputs cfg 2)).map
          (fun u => u.utxoEntry.amount)).sum) ∧
    ((utxos.length : Int) ≤ MassEstimator.calculateMaxInputs cfg 2 →
      walletHealthEstimatedMaxPayment cfg utxos =
        (utxos.map (fun u => u.utxoEntry.amount)).sum) := by
  constructor
  · exact ⟨sortByAmountDesc utxos, sortByAmountDesc_perm utxos,
      sortByAmountDesc_sorted utxos, rfl⟩
  · intro hle
    have hk : (0 : Int) ≤ MassEstimator.calculateMaxInputs cfg 2 :=
      le_trans (Int.ofNat_nonneg utxos.length) hle
    have hlen : (sortByAmountDesc utxos).length = utxos.length :=
      (sortByAmountDesc_perm utxos).length_eq
    have htake : jsSliceTo (sortByAmountDesc utxos) (MassEstimator.calculateMaxInputs cfg 2) =
        sortByAmountDesc utxos := by
      rw [jsSliceTo, if_neg (not_lt.mpr hk)]
      refine List.take_of_length_le ?_
      rw [hlen]
      have := Int.toNat_le_toNat hle
      simpa using this
    rw [walletHealthEstimatedMaxPayment]
    rw [htake]
    exact ((sortByAmountDesc_perm utxos).map (fun u => u.utxoEntry.amount)).sum_eq

/-- C5 counterexample: with a 1000-byte mass budget (buffer 1) only 4
inputs fit, so estimatedMaxPayment sums the top 4 amounts (400), not the
top maxInputsPerTx = 5 amounts (500). -/
theorem C5_counterexample :
    walletHealthEstimatedMaxPayment cfgC5 utxos5 = 400 ∧
    (((sortByAmountDesc utxos5).take cfgC5.maxInputsPerTx).map
      (fun u => u.utxoEntry.amount)).sum = 500 ∧
    (400 : Int) ≠ 500 := by
  have hc4 : MassEstimator.calculateMaxInputs cfgC5 2 = 4 := by
    rw [calcMaxInputs_eval cfgC5 2 4 (by norm_num [cfgC5])]
    norm_num [cfgC5]
  refine ⟨?_, by decide, by decide⟩
  simp only [walletHealthEstimatedMaxPayment]
  rw [hc4]
  decide

/-- C5 witness: with the default config the mass budget admits all of a
two-UTXO wallet, so estimatedMaxPayment is the full balance. -/
theorem C5_witness :
    walletHealthEstimatedMaxPayment DEFAULT_UTXO_CONFIG [utxoA, utxoB] =
      (([utxoA, utxoB].map (fun u => u.utxoEntry.amount)).sum) := by
  refine (C5_wallet_health_max_payment DEFAULT_UTXO_CONFIG [utxoA, utxoB]).2 ?_
  rw [calcMaxInputs_eval DEFAULT_UTXO_CONFIG 2 449 (by norm_num [DEFAULT_UTXO_CONFIG, ratNineTenths_eq])]
  norm_num [DEFAULT_UTXO_CONFIG, ratNineTenths_eq]

/-- C6: after set, a get within the TTL stamp returns the stored list;
after invalidate, get misses; a get past the expiry stamp misses and
removes the entry; and has is get ≠ none with the same removal effect. -/
theorem C6_cache_spec (c : UTXOCache) (a : String) (n : Network)
    (u : List EnrichedUTXO) (t now : Int) :
    (now ≤ t + c.ttlMs → ((c.set a n u t).get a n now).1 = some u) ∧
    (((c.invalidate a n).get a n now).1 = none) ∧
    (∀ entry : CacheEntry, c.cache (getCacheKey a n) = some entry → entry.expiresAt < now →
      (c.get a n now).1 = none ∧ ((c.get a n now).2).cache (getCacheKey a n) = none) ∧
    ((c.has a n now).1 = ((c.get a n now).1).isSome ∧ (c.has a n now).2 = (c.get a n now).2) := by
  refine ⟨?_, ?_, ?_, rfl, rfl⟩
  · intro hnow
    have h : ¬ (t + c.ttlMs < now) := not_lt.mpr hnow
    simp [UTXOCache.set, UTXOCache.get, h]
  · simp [UTXOCache.invalidate, UTXOCache.get]
  · intro entry hentry hexp
    refine ⟨?_, ?_⟩ <;> simp [UTXOCache.get, hentry, hexp]

/-- C6 witness: a set followed by an in-TTL get on the empty cache. -/
theorem C6_witness :
    ((emptyCache.set "addr" Network.mainnet [utxoA] 0).get "addr" Network.mainnet 5000).1 =
      some [utxoA] :=
  (C6_cache_spec emptyCache "addr" Network.mainnet [utxoA] 0 5000).1 (by decide)

/-- C7: a fresh lock reports locked; past its expiry the read reports
unlocked and removes the entry; unlock after lock reports unlocked at any
time; and a second unlock leaves the table unchanged. -/
theorem C7_lock_spec (tbl : LockTable) (u : EnrichedUTXO) (ttl : Int)
    (reason : LockReason) (now : Int) :
    (0 ≤ ttl → ((tbl.lockUTXO u ttl reason now).isLocked u now).1 = true) ∧
    (∀ now2, now + ttl < now2 →
      ((tbl.lockUTXO u ttl reason now).isLocked u now2).1 = false ∧
      (((tbl.lockUTXO u ttl reason now).isLocked u now2).2).locks (utxoLockId u) = none) ∧
    (∀ now2, (((tbl.lockUTXO u ttl reason now).unlockUTXO u).isLocked u now2).1 = false) ∧
    ((tbl.unlockUTXO u).unlockUTXO u = tbl.unlockUTXO u) := by
  refine ⟨?_, ?_, ?_, ?_⟩
  · intro httl
    have h : ¬ (now + ttl < now) := by omega
    simp [LockTable.lockUTXO, LockTable.isLocked, h]
  · intro now2 hlate
    refine ⟨?_, ?_⟩ <;> simp [LockTable.lockUTXO, LockTable.isLocked, hlate]
  · intro now2
    simp [LockTable.lockUTXO, LockTable.unlockUTXO, LockTable.isLocked]
  · simp only [LockTable.unlockUTXO]
    congr 1
    funext k
    by_cases hk : k = utxoLockId u <;> simp [hk]

/-- C7 witness: a fresh 60 s payment lock reports locked at lock time. -/
theorem C7_witness :
    ((emptyLocks.lockUTXO utxoA 60000 LockReason.payment 0).isLocked utxoA 0).1 = true :=
  (C7_lock_spec emptyLocks utxoA 60000 LockReason.payment 0).1 (by decide)

/-- One failing step of the retry loop: record the failure message and, if
attempts remain, sleep 2^attempt × 1000 ms. -/
theorem fetchLoop_step_fail (responses : Nat → FetchAttempt) (maxRetries remaining attempt : Nat)
    (lastError : Option String) (delays : List Nat)
    (hfail : (responses attempt).isOk = false) :
    fetchLoop responses maxRetries (remaining + 1) attempt lastError delays =
      fetchLoop responses maxRetries remaining (attempt + 1)
        (some (responses attempt).failureMessage)
        (if attempt < maxRetries - 1 then delays ++ [2 ^ attempt * 1000] else delays) := by
  cases h : responses attempt with
  | ok data => rw [h] at hfail; simp [FetchAttempt.isOk] at hfail
  | netError m => simp [fetchLoop, h, FetchAttempt.failureMessage]
  | badFormat => simp [fetchLoop, h, FetchAttempt.failureMessage]

/-- One successful step of the retry loop: filter and return immediately. -/
theorem fetchLoop_step_ok (responses : Nat → FetchAttempt) (maxRetries remaining attempt : Nat)
    (lastError : Option String) (delays : List Nat) (data : List WireUTXO)
    (hok : responses attempt = FetchAttempt.ok data) :
    fetchLoop responses maxRetries (remaining + 1) attempt lastError delays =
      { result := Except.ok (data.filter isValidWireUTXO)
        attemptsMade := attempt + 1
        delaysMs := delays } := by
  simp [fetchLoop, hok]

/-- C8: when every attempt fails, fetchWithRetry issues exactly 3 attempts,
sleeps 1000 ms then 2000 ms between them, and fails with an error naming
the attempt count and the last cause; when attempt k is the first to
succeed, the malformed entries are filtered out and no further attempt is
made. -/
theorem C8_fetch_retry (responses : Nat → FetchAttempt) :
    ((∀ i, i < 3 → (responses i).isOk = false) →
      fetchWithRetry responses =
        { result := Except.error ("Failed to fetch UTXOs after 3 attempts: " ++
            (responses 2).failureMessage)
          attemptsMade := 3
          delaysMs := [1000, 2000] }) ∧
    (∀ k data, k < 3 → (∀ i, i < k → (responses i).isOk = false) →
      responses k = FetchAttempt.ok data →
      fetchWithRetry responses =
        { result := Except.ok (data.filter isValidWireUTXO)
          attemptsMade := k + 1
          delaysMs := (List.range k).map (fun i => 2 ^ i * 1000) }) := by
  constructor
  · intro hfail
    rw [fetchWithRetry]
    rw [fetchLoop_step_fail responses 3 2 0 none [] (hfail 0 (by norm_num))]
    rw [fetchLoop_step_fail responses 3 1 1 _ _ (hfail 1 (by norm_num))]
    rw [fetchLoop_step_fail responses 3 0 2 _ _ (hfail 2 (by norm_num))]
    simp only [fetchLoop, Option.getD_some]
    norm_num
    rfl
  · intro k data hk hprev hok
    interval_cases k
    · rw [fetchWithRetry, fetchLoop_step_ok responses 3 2 0 none [] data hok]
      simp
    · rw [fetchWithRetry]
      rw [fetchLoop_step_fail responses 3 2 0 none [] (hprev 0 (by norm_num))]
      rw [fetchLoop_step_ok responses 3 1 1 _ _ data hok]
      simp [List.range_succ]
    · rw [fetchWithRetry]
      rw [fetchLoop_step_fail responses 3 2 0 none [] (hprev 0 (by norm_num))]
      rw [fetchLoop_step_fail responses 3 1 1 _ _ (hprev 1 (by norm_num))]
      rw [fetchLoop_step_ok responses 3 0 2 _ _ data hok]
      simp [List.range_succ]

/-- C8 witness: three straight network failures. -/
theorem C8_witness :
    fetchWithRetry (fun _ => FetchAttempt.netError "boom") =
      { result := Except.error ("Failed to fetch UTXOs after 3 attempts: " ++
          (FetchAttempt.netError "boom").failureMessage)
        attemptsMade := 3
        delaysMs := [1000, 2000] } :=
  (C8_fetch_retry (fun _ => FetchAttempt.netError "boom")).1 (fun _ _ => rfl)

/-- C9: consolidate aborts with a zero-count failure and without invoking
the builder when there are fewer than 2 candidates or when the total minus
the 10000-sompi fee is non-positive; a builder rejection is swallowed into
the same zero-count failure; and a builder success yields success = true
with the candidate count and invalidates the cache entry for the address. -/
theorem C9_consolidate_spec (cfg : UTXOManagerConfig) (cache : UTXOCache)
    (addr : String) (net : Network) (utxos : List EnrichedUTXO)
    (createTx : Except String String) (now : Int) :
    (((selectConsolidationCandidates cfg utxos).length < 2 ∨
        ((selectConsolidationCandidates cfg utxos).map (fun u => u.utxoEntry.amount)).sum -
          10000 ≤ 0) →
      UTXOConsolidator.consolidate cfg cache addr net utxos createTx =
        ({ success := false, txid := none, utxosConsolidated := 0,
           beforeCount := utxos.length, afterCount := utxos.length }, cache, false)) ∧
    (∀ e, createTx = Except.error e →
      (UTXOConsolidator.consolidate cfg cache addr net utxos createTx).1 =
        { success := false, txid := none, utxosConsolidated := 0,
          beforeCount := utxos.length, afterCount := utxos.length }) ∧
    (∀ txid, createTx = Except.ok txid →
      2 ≤ (selectConsolidationCandidates cfg utxos).length →
      0 < ((selectConsolidationCandidates cfg utxos).map (fun u => u.utxoEntry.amount)).sum -
        10000 →
      (UTXOConsolidator.consolidate cfg cache addr net utxos createTx).1 =
        { success := true, txid := some txid,
          utxosConsolidated := (selectConsolidationCandidates cfg utxos).length,
          beforeCount := utxos.length,
          afterCount := utxos.length - (selectConsolidationCandidates cfg utxos).length + 1 } ∧
      ((((UTXOConsolidator.consolidate cfg cache addr net utxos createTx).2.1).get
          addr net now).1 = none) ∧
      (UTXOConsolidator.consolidate cfg cache addr net utxos createTx).2.2 = true) := by
  refine ⟨?_, ?_, ?_⟩
  · intro habort
    rcases habort with hfew | hsmall
    · simp [UTXOConsolidator.consolidate, hfew]
    · by_cases hfew : (selectConsolidationCandidates cfg utxos).length < 2
      · simp [UTXOConsolidator.consolidate, hfew]
      · simp [UTXOConsolidator.consolidate, hfew, hsmall]
  · intro e he
    by_cases hfew : (selectConsolidationCandidates cfg utxos).length < 2
    · simp [UTXOConsolidator.consolidate, hfew]
    · by_cases hsmall :
        ((selectConsolidationCandidates cfg utxos).map (fun u => u.utxoEntry.amount)).sum -
          10000 ≤ 0
      · simp [UTXOConsolidator.consolidate, hfew, hsmall]
      · simp [UTXOConsolidator.consolidate, hfew, hsmall, he]
  · intro txid hok htwo hpos
    have hfew : ¬ (selectConsolidationCandidates cfg utxos).length < 2 := not_lt.mpr htwo
    have hsmall : ¬ (((selectConsolidationCandidates cfg utxos).map
        (fun u => u.utxoEntry.amount)).sum - 10000 ≤ 0) := not_le.mpr hpos
    refine ⟨?_, ?_, ?_⟩
    · simp [UTXOConsolidator.consolidate, hfew, hsmall, hok]
    · simp [UTXOConsolidator.consolidate, hfew, hsmall, hok, UTXOCache.invalidate,
        UTXOCache.get]
    · simp [UTXOConsolidator.consolidate, hfew, hsmall, hok]

/-- The consolidation candidates picked from the concrete two-UTXO wallet:
both survive the maturity/size filter and the mass check for 2 inputs. -/
theorem candidates_DE :
    selectConsolidationCandidates DEFAULT_UTXO_CONFIG [utxoD, utxoE] = [utxoD, utxoE] := by
  have hwithin : (MassEstimator.estimateMass DEFAULT_UTXO_CONFIG 2 1).isWithinLimit = true := by
    simp only [MassEstimator.estimateMass]
    rw [decide_eq_true_eq]
    norm_num [DEFAULT_UTXO_CONFIG, ratNineTenths_eq]
  simp only [selectConsolidationCandidates]
  rw [show sortByAgeDesc ([utxoD, utxoE].filter (fun u =>
      decide (10 ≤ u.metadata.ageInBlocks) && decide (u.utxoEntry.amount < kasToSompiOne))) =
      [utxoD, utxoE] from by decide]
  rw [show [utxoD, utxoE].take DEFAULT_UTXO_CONFIG.maxInputsPerTx = [utxoD, utxoE] from by decide]
  rw [show [utxoD, utxoE].length = 2 from rfl, hwithin]
  rw [if_pos rfl]

/-- C9 witness: two small mature UTXOs and a successful builder. -/
theorem C9_witness :
    (UTXOConsolidator.consolidate DEFAULT_UTXO_CONFIG emptyCache "addr" Network.mainnet
        [utxoD, utxoE] (Except.ok "txid1")).1 =
      { success := true, txid := some "txid1", utxosConsolidated := 2,
        beforeCount := 2, afterCount := 1 } := by
  have h := ((C9_consolidate_spec DEFAULT_UTXO_CONFIG emptyCache "addr" Network.mainnet
    [utxoD, utxoE] (Except.ok "txid1") 0).2.2 "txid1" rfl
    (by rw [candidates_DE]; decide) (by rw [candidates_DE]; decide)).1
  rw [candidates_DE] at h
  simpa using h
